import Mathlib

/-!
Verification of the formbricks/store job queue, ingress, search, webhook,
enrichment and auth components against their natural-language specification.

The Go source is shallowly embedded: each Lean definition mirrors one Go
function or code path.  Database state (the `enrichment_jobs` table) is a
list of rows in physical table order; SQL conditional updates become list
transformations; timestamps are naturals; Go byte strings are lists of
naturals where byte-level behaviour matters, and Lean `String`s where only
equality matters.
-/

namespace Store

/-! ## Job queue model

Embeds `PostgresQueue` (Enqueue / Dequeue / MarkComplete / MarkFailed) and
the `EnrichmentJob` ent schema.  A queue state is the list of job rows in
physical table order; ids abstract the (random, v4) UUID primary keys as
naturals, timestamps as naturals.
-/

/-- Job status column: pending, processing, completed, failed. -/
inductive JobStatus
  | pending
  | processing
  | completed
  | failed
deriving DecidableEq

/-- Job type column: enrichment (sentiment/topics) or embedding (vector). -/
inductive JobType
  | enrichment
  | embedding
deriving DecidableEq

/-- One row of the `enrichment_jobs` table (ent schema `EnrichmentJob`).
Ent defaults on insert: status pending, attempts 0, processed_at NULL. -/
structure Job where
  id : Nat
  experienceId : Nat
  jobType : JobType
  text : String
  status : JobStatus
  error : Option String
  attempts : Nat
  createdAt : Nat
  processedAt : Option Nat
deriving DecidableEq

/-- Queue state: the job table rows in physical table order. -/
abbrev QState := List Job

/-- SQL `UPDATE ... WHERE <p>` through ent `UpdateOneID`: the id column is
the primary key, so at most one row is affected; the embedding updates the
first row satisfying the predicate (with unique ids this is the only one). -/
def updateFirst {α : Type} (p : α → Bool) (f : α → α) : List α → List α
  | [] => []
  | x :: xs => if p x then f x :: xs else x :: updateFirst p f xs

/-- The id column is a primary key: all rows carry distinct ids. -/
def UniqueIds (s : QState) : Prop := (s.map Job.id).Nodup

instance (s : QState) : Decidable (UniqueIds s) := by
  unfold UniqueIds; infer_instance

/-- Freshly inserted job row: ent defaults give status pending, attempts
0, processed_at NULL.  `newId` abstracts the generated (random v4) UUID
and `now` the `created_at` default. -/
def newJob (expId : Nat) (text : String) (jt : JobType) (newId now : Nat) : Job :=
  { id := newId, experienceId := expId, jobType := jt, text := text,
    status := .pending, error := none, attempts := 0,
    createdAt := now, processedAt := none }

/-- PostgresQueue.enqueueJob: INSERT a pending row. -/
def enqueueJob (s : QState) (expId : Nat) (text : String) (jt : JobType)
    (newId now : Nat) : QState :=
  s ++ [newJob expId text jt newId now]

/-- Predicate of the conditional claim update in PostgresQueue.Dequeue:
`UpdateOneID(job.ID).Where(status = pending)`. -/
def claimPred (targetId : Nat) (j : Job) : Bool :=
  decide (j.id = targetId ∧ j.status = .pending)

/-- Field assignment of the claim update: `SetStatus("processing")` and
`SetAttempts(job.Attempts + 1)`, where `snapAttempts` is the attempts value
of the row as read in the query phase (the snapshot, per the source). -/
def claimUpd (snapAttempts : Nat) (j : Job) : Job :=
  { j with status := .processing, attempts := snapAttempts + 1 }

/-- The atomic conditional update of PostgresQueue.Dequeue: claim the row
with the snapshot's id provided it is still pending.  A zero-row update
(ent NotFound) yields `none`: the worker treats it as "no job". -/
def claimJob (s : QState) (snap : Job) : Option Job × QState :=
  match s.find? (claimPred snap.id) with
  | some row =>
      (some (claimUpd snap.attempts row),
       updateFirst (claimPred snap.id) (claimUpd snap.attempts) s)
  | none => (none, s)

/-- Leftmost row with minimal `createdAt` of a list of rows.  Realizes the
SQL `ORDER BY created_at ASC LIMIT 1`: among equal `created_at` values SQL
fixes no order, so the embedding exposes the backend's choice as the
physical table order (leftmost wins ties). -/
def oldestFirst : List Job → Option Job
  | [] => none
  | j :: rest =>
      match oldestFirst rest with
      | none => some j
      | some m => if m.createdAt < j.createdAt then some m else some j

/-- Query phase of PostgresQueue.Dequeue:
`Where(status = pending).Order(Asc("created_at")).Limit(1)`. -/
def selectOldestPending (s : QState) : Option Job :=
  oldestFirst (s.filter fun j => decide (j.status = .pending))

/-- PostgresQueue.Dequeue, sequential execution: query the oldest pending
row, then run the conditional claim update on it. -/
def dequeue (s : QState) : Option Job × QState :=
  match selectOldestPending s with
  | some snap => claimJob s snap
  | none => (none, s)

/-- PostgresQueue.MarkComplete: `UpdateOneID(id)` (no status guard) setting
status completed and processed_at. -/
def markComplete (s : QState) (jobId now : Nat) : QState :=
  updateFirst (fun j => decide (j.id = jobId))
    (fun j => { j with status := .completed, processedAt := some now }) s

/-- Error message stored by MarkFailed: guards against nil errors. -/
def failMsg (msg : Option String) : String :=
  Option.getD msg ("unknown error")

/-- Row assignment of MarkFailed. -/
def failUpd (msg : Option String) (now : Nat) (j : Job) : Job :=
  { j with status := .failed, error := some (failMsg msg), processedAt := some now }

/-- PostgresQueue.MarkFailed: `UpdateOneID(id)` (no status guard) setting
status failed, the error message ("unknown error" for a nil error) and
processed_at. -/
def markFailed (s : QState) (jobId : Nat) (msg : Option String) (now : Nat) :
    QState :=
  updateFirst (fun j => decide (j.id = jobId)) (failUpd msg now) s

/-- One queue operation, with the environment-supplied values (fresh id,
clock reading, error message) as constructor arguments. -/
inductive QOp
  | enqueue (expId : Nat) (text : String) (jt : JobType) (newId now : Nat)
  | dequeue
  | markComplete (jobId now : Nat)
  | markFailed (jobId : Nat) (msg : Option String) (now : Nat)

/-- Effect of one queue operation on the job table. -/
def stepOp : QOp → QState → QState
  | .enqueue expId text jt newId now, s => enqueueJob s expId text jt newId now
  | .dequeue, s => (dequeue s).2
  | .markComplete jobId now, s => markComplete s jobId now
  | .markFailed jobId msg now, s => markFailed s jobId msg now

/-- Job id targeted by a mark operation, if any. -/
def markTarget : QOp → Option Nat
  | .markComplete j _ => some j
  | .markFailed j _ _ => some j
  | _ => none

/-- The worker discipline assumed by the spec: MarkComplete/MarkFailed are
only invoked on a job currently in status processing. -/
def MarkDiscipline (op : QOp) (s : QState) : Prop :=
  match markTarget op with
  | some t => ∀ j ∈ s, j.id = t → j.status = .processing
  | none => True

instance (op : QOp) (s : QState) : Decidable (MarkDiscipline op s) := by
  unfold MarkDiscipline
  cases markTarget op with
  | none => exact inferInstanceAs (Decidable True)
  | some t =>
      exact inferInstanceAs
        (Decidable (∀ j ∈ s, j.id = t → j.status = .processing))

/-- The status edges the spec allows a single operation to take:
unchanged, pending to processing, or processing to a terminal status. -/
def AllowedEdge (a b : JobStatus) : Prop :=
  a = b ∨ (a = .pending ∧ b = .processing) ∨
    (a = .processing ∧ (b = .completed ∨ b = .failed))

instance (a b : JobStatus) : Decidable (AllowedEdge a b) := by
  unfold AllowedEdge; infer_instance

/-- Invariant of the spec: processed_at is set iff the job is terminal. -/
def ProcInv (s : QState) : Prop :=
  ∀ j ∈ s, (j.processedAt ≠ none ↔ (j.status = .completed ∨ j.status = .failed))

instance (s : QState) : Decidable (ProcInv s) := by
  unfold ProcInv; infer_instance

/-! ## Ingress handler: AI-job enqueueing

Embeds the create-experience handler's derivation step
(`apps/hub/internal/api/experiences.go`, lines 105-117) and `enqueueAIJobs`
(lines 19-39).  `queuePresent` models `enrichmentQueue != nil` (the server
is wired with a nil queue exactly when derivation is disabled). -/

/-- FieldType.ShouldEnrich: only `text` fields are enriched. -/
def shouldEnrich (fieldType : String) : Bool :=
  fieldType == "text"

/-- Text assembly in enqueueAIJobs: when a field label is present the job
text is "Question: {label}\nResponse: {value}", else the raw value. -/
def buildEnrichmentText (fieldLabel valueText : String) : String :=
  if fieldLabel == "" then valueText
  else ("Question: ") ++ fieldLabel ++ ("\nResponse: ") ++ valueText

/-- One enqueue request issued by the ingress handler. -/
inductive JobReq
  | enrichment (expId : Nat) (text : String)
  | embedding (expId : Nat) (text : String)
deriving DecidableEq

/-- enqueueAIJobs: one enrichment request and one embedding request, both
carrying the contextual text. -/
def enqueueAIJobs (expId : Nat) (fieldLabel valueText : String) : List JobReq :=
  [.enrichment expId (buildEnrichmentText fieldLabel valueText),
   .embedding expId (buildEnrichmentText fieldLabel valueText)]

/-- Derivation step of the create-experience handler: `shouldProcess` is
`fieldType.ShouldEnrich() && ValueText != nil && *ValueText != ""`; jobs
are enqueued only when additionally the queue is wired (non-nil). -/
def createExperienceJobs (fieldType : String) (fieldLabel valueText : Option String)
    (queuePresent : Bool) (expId : Nat) : List JobReq :=
  let shouldProcess := shouldEnrich fieldType &&
    (match valueText with
     | some t => !(t == "")
     | none => false)
  if shouldProcess && queuePresent then
    enqueueAIJobs expId (fieldLabel.getD ("")) (valueText.getD (""))
  else []

/-- Number of enrichment requests in a list of enqueue requests. -/
def countEnrichment (l : List JobReq) : Nat :=
  (l.filter fun r => match r with
    | .enrichment _ _ => true
    | _ => false).length

/-- Number of embedding requests in a list of enqueue requests. -/
def countEmbedding (l : List JobReq) : Nat :=
  (l.filter fun r => match r with
    | .embedding _ _ => true
    | _ => false).length

/-! ## Semantic search scoring

Embeds the two `RegisterSearchRoutes` variants: the hub one computes
`similarity = 1 - cosineDist`, clamped to the unit interval, per record
(part_006, lines 109-136); the store one computes a rank-based score
`1 - i/n*0.5` (part_008, lines 108-121).  Both query only rows with
`embedding IS NOT NULL`.  Distances are abstracted as rationals: the claim
relates the attached score to the distance value, however computed. -/

/-- Minimal record shape for the search read path. -/
structure SearchRec where
  id : Nat
  embedding : Option (List ℚ)
deriving DecidableEq

/-- The `Where(EmbeddingNotNil())` filter applied by both search variants. -/
def searchCandidates (recs : List SearchRec) : List SearchRec :=
  recs.filter fun r => r.embedding.isSome

/-- Hub-variant score of one record: `similarity := 1 - distance`, then
clamped below at 0 and above at 1 (part_006, lines 121-130). -/
def hubSimilarity (d : ℚ) : ℚ :=
  let s := 1 - d
  if s < 0 then 0 else if s > 1 then 1 else s

/-- Store-variant score of the record at rank `i` of `n` results:
`1.0 - float64(i)/float64(n)*0.5` (part_008, line 115). -/
def storeScore (i n : Nat) : ℚ :=
  1 - ((i : ℚ) / (n : ℚ)) * (1 / 2)

/-- Store-variant score list for `n` results. -/
def storeScores (n : Nat) : List ℚ :=
  (List.range n).map fun i => storeScore i n

/-- Store-variant result assembly: each returned record is paired with the
score of its rank in the result list. -/
def storeSearchResults (recs : List SearchRec) : List (SearchRec × ℚ) :=
  recs.zip (storeScores recs.length)

/-! ## Webhook dispatcher retry loop

Embeds `Dispatcher.sendWithRetry` (part_009, lines 203-259):
`maxRetries = 3` loop iterations; before retry `attempt` (1-based in
seconds, `retryBaseDelay = 1s`) it sleeps `2^(attempt-1)` seconds; any 2xx
response returns immediately; exhausting the loop logs and drops.  The
target's behaviour is a function from attempt index to HTTP outcome. -/

/-- Outcome of one POST attempt: a status code, or a transport error. -/
inductive HttpOutcome
  | status (code : Nat)
  | transportError
deriving DecidableEq

/-- Success test of the dispatcher: `200 <= code < 300`. -/
def is2xx : HttpOutcome → Bool
  | .status c => decide (200 ≤ c ∧ c < 300)
  | .transportError => false

/-- Seconds slept before POST attempt `attempt` (0-based): nothing before
the first, `retryBaseDelay * 2^(attempt-1)` before each retry. -/
def backoffDelay (attempt : Nat) : Nat :=
  if attempt = 0 then 0 else 2 ^ (attempt - 1)

/-- Retry loop body: runs up to `fuel` further attempts starting at index
`attempt`, returning the trace of (delay, outcome) pairs and whether a 2xx
response was reached. -/
def sendGo (outcome : Nat → HttpOutcome) : Nat → Nat → List (Nat × HttpOutcome) × Bool
  | 0, _ => ([], false)
  | fuel + 1, attempt =>
      let o := outcome attempt
      if is2xx o then ([(backoffDelay attempt, o)], true)
      else
        let r := sendGo outcome fuel (attempt + 1)
        ((backoffDelay attempt, o) :: r.1, r.2)

/-- Total attempt budget of sendWithRetry. -/
def maxRetries : Nat := 3

/-- Dispatcher.sendWithRetry: at most `maxRetries` POSTs with exponential
backoff, stopping at the first 2xx. -/
def sendWithRetry (outcome : Nat → HttpOutcome) : List (Nat × HttpOutcome) × Bool :=
  sendGo outcome maxRetries 0

/-! ## Enrichment normalization and prompt truncation

Embeds `Service.normalizeEnrichment` and `Service.buildPrompt`
(`apps/hub/internal/enrichment/enrichment.go`).  The prompt text is a Go
byte string, modelled as a list of bytes, since `len` and slicing in the
source are byte-based. -/

/-- Sentiment values kept by the switch in normalizeEnrichment. -/
def validSentiments : List String :=
  ["positive", "negative", "neutral"]

/-- Emotion values in the validEmotions set of normalizeEnrichment. -/
def validEmotions : List String :=
  ["joy", "anger", "frustration", "sadness", "neutral"]

/-- Maximum number of topics kept after normalization. -/
def maxTopics : Nat := 5

/-- Structured AI analysis result (the Enrichment struct). -/
structure Enrichment where
  sentiment : String
  sentimentScore : ℚ
  emotion : String
  topics : List String
deriving DecidableEq

/-- Service.normalizeEnrichment: keep known sentiments else neutral; clamp
the score to [-1, 1]; keep known emotions else neutral; truncate topics to
at most maxTopics. -/
def normalizeEnrichment (e : Enrichment) : Enrichment :=
  { sentiment :=
      if e.sentiment ∈ validSentiments then e.sentiment else "neutral",
    sentimentScore :=
      if e.sentimentScore < -1 then -1
      else if e.sentimentScore > 1 then 1
      else e.sentimentScore,
    emotion :=
      if e.emotion ∈ validEmotions then e.emotion else "neutral",
    topics :=
      if e.topics.length > maxTopics then e.topics.take maxTopics else e.topics }

/-- Go byte strings, for byte-exact length and slicing behaviour. -/
abbrev Bytes := List Nat

/-- Maximum text length before truncation in buildPrompt. -/
def maxTextLength : Nat := 1000

/-- The three bytes of the appended "..." marker. -/
def ellipsisBytes : Bytes := [46, 46, 46]

/-- Truncation step of Service.buildPrompt (lines 105-108): text longer
than maxTextLength bytes becomes its first maxTextLength bytes followed by
"...".  The surrounding prompt template embeds this text verbatim. -/
def promptFeedbackText (t : Bytes) : Bytes :=
  if maxTextLength < t.length then t.take maxTextLength ++ ellipsisBytes else t

/-! ## Time-filter handling of list and search handlers

Embeds the since/until query-parameter handling of the three handlers.
`parse` abstracts Go's `time.Parse(time.RFC3339, s)` (standard library,
outside the repository): it returns `none` exactly on inputs that do not
parse as RFC3339. -/

/-- Outcome of the since/until processing of a handler. -/
inductive TimeFilterResult
  | error400
  | filters (sinceF untilF : Option Nat)
deriving DecidableEq

/-- List-experiences handler (`experiences.go`, lines 179-192): a
non-empty since/until is parsed; on parse error the filter is silently
skipped and the request proceeds. -/
def listTimeFilters (parse : String → Option Nat) (since untl : String) :
    TimeFilterResult :=
  .filters (if since == "" then none else parse since)
    (if untl == "" then none else parse untl)

/-- Store search handler (part_008, lines 86-99): identical silent-skip
handling of malformed since/until. -/
def storeSearchTimeFilters (parse : String → Option Nat) (since untl : String) :
    TimeFilterResult :=
  .filters (if since == "" then none else parse since)
    (if untl == "" then none else parse untl)

/-- Hub search handler (part_006, lines 82-95): a non-empty since/until
that fails to parse aborts the request with 400 Bad Request. -/
def hubSearchTimeFilters (parse : String → Option Nat) (since untl : String) :
    TimeFilterResult :=
  if since != "" && (parse since).isNone then .error400
  else if untl != "" && (parse untl).isNone then .error400
  else .filters (if since == "" then none else parse since)
    (if untl == "" then none else parse untl)

/-! ## Constant-time API-key comparison

Embeds the two `secureCompare` variants.  Keys are Go byte strings.  The
work measure counts the byte positions examined by
`subtle.ConstantTimeCompare` (its cost is the common length of its
arguments; `subtle.ConstantTimeEq` is a single word operation). -/

/-- Store middleware secureCompare (`config.go` concatenation, lines
128-139): returns false immediately when the lengths differ, else runs
ConstantTimeCompare. -/
def storeSecureCompare (a b : Bytes) : Bool :=
  if a.length = b.length then a == b else false

/-- Byte positions examined by the store variant: zero on a length
mismatch (the short-circuit), else the common length. -/
def storeCompareWork (a b : Bytes) : Nat :=
  if a.length = b.length then a.length else 0

/-- Zero-padding of a key to a target length, as done by the hub variant. -/
def padTo (x : Bytes) (n : Nat) : Bytes :=
  x ++ List.replicate (n - x.length) 0

/-- Hub middleware secureCompare (`experiencedata.go` concatenation, lines
247-272): pads both inputs to the maximum length, runs ConstantTimeCompare
on the padded inputs, and separately checks the lengths in constant time. -/
def hubSecureCompare (a b : Bytes) : Bool :=
  let m := max a.length b.length
  (padTo a m == padTo b m) && (a.length == b.length)

/-- Byte positions examined by the hub variant: always the padded length. -/
def hubCompareWork (a b : Bytes) : Nat :=
  max a.length b.length

/-! ## Concrete states used by witnesses and counterexamples -/

/-- A pending job row. -/
def exA : Job :=
  { id := 1, experienceId := 10, jobType := .enrichment, text := "",
    status := .pending, error := none, attempts := 0, createdAt := 0,
    processedAt := none }

/-- A second pending job row with a distinct id. -/
def exB : Job := { exA with id := 2 }

/-- A two-job table with both rows pending. -/
def exS : QState := [exA, exB]

/-- A one-job table whose row is being processed. -/
def exW : QState := [{ exA with id := 3, status := .processing, attempts := 1 }]

/-- Mark operation applied to the processing row of `exW`. -/
def opW : QOp := .markComplete 3 5

/-- Table obtained by a single Enqueue into the empty table. -/
def exPend : QState := stepOp (.enqueue 10 "" .enrichment 0 0) []

/-- Table obtained by MarkComplete directly after that Enqueue, with no
Dequeue in between. -/
def exDone : QState := stepOp (.markComplete 0 5) exPend

/-- Table built by two Enqueues with equal created_at timestamps: the row
with the larger (random) id was inserted first. -/
def exTie : QState :=
  enqueueJob (enqueueJob [] 9 "" .enrichment 2 0) 9 "" .enrichment 1 0

/-- The row of `exTie` that was inserted first (id 2). -/
def jTie2 : Job :=
  { id := 2, experienceId := 9, jobType := .enrichment, text := "",
    status := .pending, error := none, attempts := 0, createdAt := 0,
    processedAt := none }

/-- The row of `exTie` that was inserted second (id 1). -/
def jTie1 : Job := { jTie2 with id := 1 }

/-- The row `exA` after a successful claim. -/
def exA2 : Job := { exA with status := .processing, attempts := 1 }

/-- The row `exB` after a successful claim. -/
def exB2 : Job := { exB with status := .processing, attempts := 1 }

/-- The row `jTie2` after a successful claim. -/
def jTie2p : Job := { jTie2 with status := .processing, attempts := 1 }

/-- A record with a stored embedding. -/
def rX : SearchRec := { id := 1, embedding := some [1, 0] }

/-- A second record with the same stored embedding (hence, for any query,
the same cosine distance as `rX`). -/
def rY : SearchRec := { id := 2, embedding := some [1, 0] }

/-- A webhook target that fails once with a 500, then succeeds. -/
def outW : Nat → HttpOutcome :=
  fun i => if i = 0 then .status 500 else .status 200

/-- A webhook target that always responds 500. -/
def outFail : Nat → HttpOutcome := fun _ => .status 500

/-- Parse stub standing for `time.Parse` on inputs that are not RFC3339:
it rejects every input. -/
def parseNone : String → Option Nat := fun _ => none

/-! ## Helper lemmas -/

theorem updateFirst_length {α : Type} (p : α → Bool) (f : α → α) :
    ∀ l : List α, (updateFirst p f l).length = l.length
  | [] => rfl
  | x :: xs => by
    unfold updateFirst
    by_cases hp : p x <;> simp [hp, updateFirst_length p f xs]

theorem updateFirst_get {α : Type} (p : α → Bool) (f : α → α) :
    ∀ (l : List α) (i : Nat) (h : i < l.length)
      (h2 : i < (updateFirst p f l).length),
      (updateFirst p f l).get ⟨i, h2⟩ = l.get ⟨i, h⟩ ∨
        ((updateFirst p f l).get ⟨i, h2⟩ = f (l.get ⟨i, h⟩) ∧
          p (l.get ⟨i, h⟩) = true)
  | [], i, h, _ => absurd h (by simp)
  | x :: xs, i, h, h2 => by
    by_cases hp : p x
    · cases i with
      | zero => right; constructor <;> simp [updateFirst, hp]
      | succ n => left; simp [updateFirst, hp]
    · cases i with
      | zero => left; simp [updateFirst, hp]
      | succ n =>
          have h3 : n < xs.length := by simpa using h
          have h4 : n < (updateFirst p f xs).length := by
            rw [updateFirst_length]; exact h3
          have := updateFirst_get p f xs n h3 h4
          simpa [updateFirst, hp] using this

theorem mem_updateFirst {α : Type} (p : α → Bool) (f : α → α) :
    ∀ (l : List α) (x : α), x ∈ updateFirst p f l →
      x ∈ l ∨ ∃ y ∈ l, p y = true ∧ x = f y
  | [], x, hx => absurd hx (by simp [updateFirst])
  | z :: zs, x, hx => by
    by_cases hp : p z
    · simp only [updateFirst, if_pos hp] at hx
      rcases List.mem_cons.mp hx with h | h
      · exact Or.inr ⟨z, List.mem_cons_self z zs, hp, h⟩
      · exact Or.inl (List.mem_cons_of_mem z h)
    · simp only [updateFirst, if_neg hp] at hx
      rcases List.mem_cons.mp hx with h | h
      · exact Or.inl (h ▸ List.mem_cons_self z zs)
      · rcases mem_updateFirst p f zs x h with h1 | ⟨y, hy, hpy, hxy⟩
        · exact Or.inl (List.mem_cons_of_mem z h1)
        · exact Or.inr ⟨y, List.mem_cons_of_mem z hy, hpy, hxy⟩

theorem claim_clears_pending (c a : Nat) :
    ∀ s : QState, UniqueIds s →
      ∀ x ∈ updateFirst (claimPred c) (claimUpd a) s, claimPred c x = false
  | [], _, x, hx => absurd hx (by simp [updateFirst])
  | j :: rest, hU, x, hx => by
    have hU2 : (j.id ∉ rest.map Job.id) ∧ UniqueIds rest := by
      simpa [UniqueIds, List.nodup_cons] using hU
    by_cases hp : claimPred c j = true
    · simp only [updateFirst, if_pos hp] at hx
      rcases List.mem_cons.mp hx with h | h
      · subst h; simp [claimPred, claimUpd]
      · by_contra hcx
        have hcx2 : claimPred c x = true := by
          cases h3 : claimPred c x
          · exact absurd h3 hcx
          · rfl
        have hxid : x.id = c ∧ x.status = .pending := by
          simpa [claimPred] using hcx2
        have hjid : j.id = c ∧ j.status = .pending := by
          simpa [claimPred] using hp
        exact hU2.1 (List.mem_map.mpr ⟨x, h, by rw [hxid.1, hjid.1]⟩)
    · have hp2 : claimPred c j = false := by
        cases h3 : claimPred c j
        · rfl
        · exact absurd h3 hp
      simp only [updateFirst, Bool.not_eq_true] at hx
      rw [if_neg (by simp [hp2])] at hx
      rcases List.mem_cons.mp hx with h | h
      · subst h; exact hp2
      · exact claim_clears_pending c a rest hU2.2 x h

theorem oldestFirst_spec :
    ∀ (l : List Job) (j : Job), oldestFirst l = some j →
      j ∈ l ∧ ∀ x ∈ l, j.createdAt ≤ x.createdAt
  | [], j, h => by simp [oldestFirst] at h
  | j0 :: rest, j, h => by
    cases hr : oldestFirst rest with
    | none =>
        have hj : j = j0 := by
          simp [oldestFirst, hr] at h; exact h.symm
        subst hj
        have hrest : rest = [] := by
          cases rest with
          | nil => rfl
          | cons y ys =>
              exfalso
              cases h2 : oldestFirst ys with
              | none => simp [oldestFirst, h2] at hr
              | some m => simp [oldestFirst, h2] at hr; split at hr <;> simp at hr
        subst hrest
        exact ⟨List.mem_singleton.mpr rfl, by simp⟩
    | some m =>
        have hspec := oldestFirst_spec rest m hr
        by_cases hlt : m.createdAt < j0.createdAt
        · have hj : j = m := by
            simp [oldestFirst, hr, if_pos hlt] at h; exact h.symm
          rw [hj]
          refine ⟨List.mem_cons_of_mem j0 hspec.1, ?_⟩
          intro x hx
          rcases List.mem_cons.mp hx with h1 | h1
          · exact h1 ▸ Nat.le_of_lt hlt
          · exact hspec.2 x h1
        · have hj : j = j0 := by
            simp [oldestFirst, hr, if_neg hlt] at h; exact h.symm
          rw [hj]
          refine ⟨List.mem_cons_self j0 rest, ?_⟩
          intro x hx
          rcases List.mem_cons.mp hx with h1 | h1
          · exact h1 ▸ Nat.le_refl _
          · exact Nat.le_trans (Nat.le_of_not_lt hlt) (hspec.2 x h1)

theorem selectOldestPending_spec (s : QState) (j : Job)
    (h : selectOldestPending s = some j) :
    j ∈ s ∧ j.status = .pending ∧
      ∀ x ∈ s, x.status = .pending → j.createdAt ≤ x.createdAt := by
  have hspec := oldestFirst_spec _ j h
  have hmem := List.mem_filter.mp hspec.1
  refine ⟨hmem.1, by simpa using hmem.2, ?_⟩
  intro x hx hxp
  exact hspec.2 x (List.mem_filter.mpr ⟨hx, by simpa using hxp⟩)

theorem uniqueIds_inj {s : QState} (hU : UniqueIds s) :
    ∀ a ∈ s, ∀ b ∈ s, a.id = b.id → a = b := by
  intro a ha b hb hab
  exact List.inj_on_of_nodup_map hU ha hb hab

theorem get_append_left {α : Type} (l1 l2 : List α) (i : Nat)
    (h : i < l1.length) (h2 : i < (l1 ++ l2).length) :
    (l1 ++ l2).get ⟨i, h2⟩ = l1.get ⟨i, h⟩ := by
  simp [List.getElem_append_left, h]

theorem get_congr {α : Type} (l l2 : List α) (heq : l = l2) (i : Nat)
    (h : i < l.length) (h2 : i < l2.length) :
    l.get ⟨i, h⟩ = l2.get ⟨i, h2⟩ := by
  subst heq; rfl

theorem allowedEdge_updateFirst (p : Job → Bool) (f : Job → Job) (s : QState)
    (hf : ∀ x ∈ s, p x = true → AllowedEdge x.status (f x).status)
    (i : Nat) (h : i < s.length) (h2 : i < (updateFirst p f s).length) :
    AllowedEdge (s.get ⟨i, h⟩).status ((updateFirst p f s).get ⟨i, h2⟩).status := by
  rcases updateFirst_get p f s i h h2 with h3 | ⟨h3, h4⟩
  · rw [h3]; left; rfl
  · rw [h3]; exact hf _ (List.get_mem s _ _) h4

theorem attempts_updateFirst (p : Job → Bool) (f : Job → Job) (s : QState)
    (hf : ∀ x ∈ s, p x = true → x.attempts ≤ (f x).attempts)
    (i : Nat) (h : i < s.length) (h2 : i < (updateFirst p f s).length) :
    (s.get ⟨i, h⟩).attempts ≤ ((updateFirst p f s).get ⟨i, h2⟩).attempts := by
  rcases updateFirst_get p f s i h h2 with h3 | ⟨h3, h4⟩
  · rw [h3]
  · rw [h3]; exact hf _ (List.get_mem s _ _) h4

theorem procInv_updateFirst (p : Job → Bool) (f : Job → Job) (s : QState)
    (hinv : ProcInv s)
    (hf : ∀ x ∈ s, p x = true →
      ((f x).processedAt ≠ none ↔
        ((f x).status = .completed ∨ (f x).status = .failed))) :
    ProcInv (updateFirst p f s) := by
  intro j hj
  rcases mem_updateFirst p f s j hj with h | ⟨y, hy, hpy, hjy⟩
  · exact hinv j h
  · exact hjy ▸ hf y hy hpy

/-! ## Claim theorems -/

/-- C1: under the atomic conditional claim update keyed on
`status = pending`, two claim steps interleaved in any order on the same
job table (each acting on an arbitrary read snapshot) never both succeed
on the same job id: concurrent Dequeue calls return distinct jobs, and a
zero-row update is treated as no job. -/
theorem dequeue_claims_are_exclusive (s : QState) (snap1 snap2 j1 j2 : Job)
    (hU : UniqueIds s)
    (h1 : (claimJob s snap1).1 = some j1)
    (h2 : (claimJob (claimJob s snap1).2 snap2).1 = some j2) :
    j1.id ≠ j2.id := by
  cases hf1 : s.find? (claimPred snap1.id) with
  | none => rw [claimJob, hf1] at h1; simp at h1
  | some row1 =>
      rw [claimJob, hf1] at h1
      simp only [Option.some.injEq] at h1
      have hrow1 : claimPred snap1.id row1 = true := List.find?_some hf1
      have hs2 : (claimJob s snap1).2 =
          updateFirst (claimPred snap1.id) (claimUpd snap1.attempts) s := by
        rw [claimJob, hf1]
      rw [hs2] at h2
      cases hf2 : (updateFirst (claimPred snap1.id) (claimUpd snap1.attempts)
          s).find? (claimPred snap2.id) with
      | none => rw [claimJob, hf2] at h2; simp at h2
      | some row2 =>
          rw [claimJob, hf2] at h2
          simp only [Option.some.injEq] at h2
          have hrow2 : claimPred snap2.id row2 = true := List.find?_some hf2
          have hmem2 := List.mem_of_find?_eq_some hf2
          intro heq
          have hid1 : j1.id = row1.id := by rw [← h1]; simp [claimUpd]
          have hid2 : j2.id = row2.id := by rw [← h2]; simp [claimUpd]
          have hp1 : row1.id = snap1.id ∧ row1.status = .pending := by
            simpa [claimPred] using hrow1
          have hp2 : row2.id = snap2.id ∧ row2.status = .pending := by
            simpa [claimPred] using hrow2
          have hsame : claimPred snap1.id row2 = true := by
            simp only [claimPred, decide_eq_true_eq]
            refine ⟨?_, hp2.2⟩
            omega
          have hclear := claim_clears_pending snap1.id snap1.attempts s hU
            row2 hmem2
          rw [hclear] at hsame
          exact Bool.false_ne_true hsame

/-- Witness for C1: two pending jobs, two successive claims, distinct ids. -/
theorem dequeue_claims_are_exclusive_witness :
    UniqueIds exS ∧ (claimJob exS exA).1 = some exA2 ∧
      (claimJob (claimJob exS exA).2 exB).1 = some exB2 ∧ exA2.id ≠ exB2.id :=
  ⟨by decide, by decide, by decide,
   dequeue_claims_are_exclusive exS exA exB exA2 exB2 (by decide) (by decide)
     (by decide)⟩

/-- C5 counterexample: in a table where two pending jobs share a
created_at and the earlier-inserted row carries the larger id, the
selection query (ORDER BY created_at only) returns the larger id: the tie
is not broken by job id. -/
theorem dequeue_tie_not_by_id_cex :
    selectOldestPending exTie = some jTie2 ∧ jTie1 ∈ exTie ∧
      jTie1.status = .pending ∧ jTie1.createdAt = jTie2.createdAt ∧
      jTie1.id < jTie2.id ∧
      ¬ (∀ x ∈ exTie, x.status = .pending →
          jTie2.createdAt < x.createdAt ∨
            (jTie2.createdAt = x.createdAt ∧ jTie2.id ≤ x.id)) := by
  decide

/-- C5 (amended): Dequeue claims a job whose created_at is minimal among
the pending jobs (FIFO by created_at); no tie-breaking rule on job id is
imposed by the query. -/
theorem dequeue_fifo_min_created_at (s : QState) (j : Job)
    (h : (dequeue s).1 = some j) :
    ∃ snap ∈ s, snap.status = .pending ∧ j.id = snap.id ∧
      ∀ x ∈ s, x.status = .pending → snap.createdAt ≤ x.createdAt := by
  cases hsel : selectOldestPending s with
  | none => simp [dequeue, hsel] at h
  | some snap =>
      simp only [dequeue, hsel] at h
      have hspec := selectOldestPending_spec s snap hsel
      cases hf : s.find? (claimPred snap.id) with
      | none => simp [claimJob, hf] at h
      | some row =>
          simp only [claimJob, hf, Option.some.injEq] at h
          have hrow : claimPred snap.id row = true := List.find?_some hf
          have hp : row.id = snap.id ∧ row.status = .pending := by
            simpa [claimPred] using hrow
          refine ⟨snap, hspec.1, hspec.2.1, ?_, hspec.2.2⟩
          rw [← h]
          simpa [claimUpd] using hp.1

/-- Witness for C5: dequeue on the tie table claims the first-inserted
minimal-created_at job. -/
theorem dequeue_fifo_min_created_at_witness :
    (dequeue exTie).1 = some jTie2p ∧
      (∃ snap ∈ exTie, snap.status = .pending ∧ jTie2p.id = snap.id ∧
        ∀ x ∈ exTie, x.status = .pending → snap.createdAt ≤ x.createdAt) :=
  ⟨by decide, dequeue_fifo_min_created_at exTie jTie2p (by decide)⟩

/-- C3 counterexample: MarkComplete carries no status guard, so applying
it directly to a freshly enqueued (pending) job moves it to completed
without ever passing through processing — an edge the claimed lifecycle
does not allow. -/
theorem markComplete_skips_processing_cex :
    exPend.map Job.status = [.pending] ∧
      exDone.map Job.status = [.completed] ∧
      ¬ AllowedEdge .pending .completed := by
  decide

/-- C3 (amended): per queue operation, status edges follow
pending to processing to completed or failed provided marks are applied
only to processing jobs (the worker discipline; the operations themselves
do not enforce it); attempts is monotone non-decreasing; and processed_at
is set iff the job is in a terminal status, over every operation. -/
theorem queue_step_invariants (op : QOp) (s : QState) :
    ((MarkDiscipline op s →
        ∀ (i : Nat) (h : i < s.length) (h2 : i < (stepOp op s).length),
          AllowedEdge (s.get ⟨i, h⟩).status ((stepOp op s).get ⟨i, h2⟩).status) ∧
      (UniqueIds s →
        ∀ (i : Nat) (h : i < s.length) (h2 : i < (stepOp op s).length),
          (s.get ⟨i, h⟩).attempts ≤ ((stepOp op s).get ⟨i, h2⟩).attempts)) ∧
      (ProcInv s → ProcInv (stepOp op s)) := by
  cases op with
  | enqueue expId text jt newId now =>
      refine ⟨⟨?_, ?_⟩, ?_⟩
      · intro _ i h h2
        have h3 : (stepOp (QOp.enqueue expId text jt newId now) s).get ⟨i, h2⟩ =
            s.get ⟨i, h⟩ :=
          get_append_left s [newJob expId text jt newId now] i h h2
        rw [h3]; left; rfl
      · intro _ i h h2
        have h3 : (stepOp (QOp.enqueue expId text jt newId now) s).get ⟨i, h2⟩ =
            s.get ⟨i, h⟩ :=
          get_append_left s [newJob expId text jt newId now] i h h2
        rw [h3]
      · intro hinv j hj
        have hj2 : j ∈ s ++ [newJob expId text jt newId now] := hj
        rcases List.mem_append.mp hj2 with h | h
        · exact hinv j h
        · have h4 := List.mem_singleton.mp h
          rw [h4]; simp [newJob]
  | dequeue =>
      cases hsel : selectOldestPending s with
      | none =>
          have hstep : stepOp .dequeue s = s := by
            simp [stepOp, dequeue, hsel]
          refine ⟨⟨?_, ?_⟩, ?_⟩
          · intro _ i h h2
            rw [get_congr _ _ hstep i h2 (hstep ▸ h2)]
            left; rfl
          · intro _ i h h2
            rw [get_congr _ _ hstep i h2 (hstep ▸ h2)]
          · intro hinv; rw [hstep]; exact hinv
      | some snap =>
          have hspec := selectOldestPending_spec s snap hsel
          cases hf : s.find? (claimPred snap.id) with
          | none =>
              have hstep : stepOp .dequeue s = s := by
                simp [stepOp, dequeue, hsel, claimJob, hf]
              refine ⟨⟨?_, ?_⟩, ?_⟩
              · intro _ i h h2
                rw [get_congr _ _ hstep i h2 (hstep ▸ h2)]
                left; rfl
              · intro _ i h h2
                rw [get_congr _ _ hstep i h2 (hstep ▸ h2)]
              · intro hinv; rw [hstep]; exact hinv
          | some row =>
              have hstep : stepOp .dequeue s =
                  updateFirst (claimPred snap.id) (claimUpd snap.attempts) s := by
                simp [stepOp, dequeue, hsel, claimJob, hf]
              refine ⟨⟨?_, ?_⟩, ?_⟩
              · intro _ i h h2
                rw [get_congr _ _ hstep i h2 (hstep ▸ h2)]
                refine allowedEdge_updateFirst _ _ s ?_ i h (hstep ▸ h2)
                intro x _ hpx
                have hx : x.id = snap.id ∧ x.status = .pending := by
                  simpa [claimPred] using hpx
                right; left
                exact ⟨hx.2, by simp [claimUpd]⟩
              · intro hU i h h2
                rw [get_congr _ _ hstep i h2 (hstep ▸ h2)]
                refine attempts_updateFirst _ _ s ?_ i h (hstep ▸ h2)
                intro x hxmem hpx
                have hx : x.id = snap.id ∧ x.status = .pending := by
                  simpa [claimPred] using hpx
                have hxs : x = snap := uniqueIds_inj hU x hxmem snap hspec.1 hx.1
                rw [hxs]
                simp [claimUpd]
              · intro hinv
                rw [hstep]
                refine procInv_updateFirst _ _ s hinv ?_
                intro x hxmem hpx
                have hx : x.id = snap.id ∧ x.status = .pending := by
                  simpa [claimPred] using hpx
                have hnone : x.processedAt = none := by
                  by_contra hne
                  have := (hinv x hxmem).mp hne
                  rw [hx.2] at this
                  rcases this with h3 | h3 <;> exact JobStatus.noConfusion h3
                simp [claimUpd, hnone]
  | markComplete t now =>
      refine ⟨⟨?_, ?_⟩, ?_⟩
      · intro hd i h h2
        have hd2 : ∀ j ∈ s, j.id = t → j.status = .processing := by
          simpa [MarkDiscipline, markTarget] using hd
        refine allowedEdge_updateFirst _ _ s ?_ i h h2
        intro x hxmem hpx
        have hx : x.id = t := by simpa using hpx
        right; right
        exact ⟨hd2 x hxmem hx, Or.inl rfl⟩
      · intro _ i h h2
        refine attempts_updateFirst _ _ s ?_ i h h2
        intro x _ _
        simp
      · intro hinv
        refine procInv_updateFirst _ _ s hinv ?_
        intro x _ _
        simp
  | markFailed t msg now =>
      refine ⟨⟨?_, ?_⟩, ?_⟩
      · intro hd i h h2
        have hd2 : ∀ j ∈ s, j.id = t → j.status = .processing := by
          simpa [MarkDiscipline, markTarget] using hd
        refine allowedEdge_updateFirst _ _ s ?_ i h h2
        intro x hxmem hpx
        have hx : x.id = t := by simpa using hpx
        right; right
        exact ⟨hd2 x hxmem hx, Or.inr rfl⟩
      · intro _ i h h2
        refine attempts_updateFirst _ _ s ?_ i h h2
        intro x _ _
        simp [failUpd]
      · intro hinv
        refine procInv_updateFirst _ _ s hinv ?_
        intro x _ _
        simp [failUpd]

/-- Witness for C3: a mark on a processing job, with all hypotheses
discharged on a concrete one-row table. -/
theorem queue_step_invariants_witness :
    MarkDiscipline opW exW ∧ UniqueIds exW ∧ ProcInv exW ∧
      AllowedEdge (exW.get ⟨0, by decide⟩).status
        ((stepOp opW exW).get ⟨0, by decide⟩).status ∧
      (exW.get ⟨0, by decide⟩).attempts ≤
        ((stepOp opW exW).get ⟨0, by decide⟩).attempts ∧
      ProcInv (stepOp opW exW) := by
  refine ⟨by decide, by decide, by decide, ?_, ?_, ?_⟩
  · exact (queue_step_invariants opW exW).1.1 (by decide) 0 (by decide) (by decide)
  · exact (queue_step_invariants opW exW).1.2 (by decide) 0 (by decide) (by decide)
  · exact (queue_step_invariants opW exW).2 (by decide)

/-- C2: the ingress handler enqueues exactly one enrichment and one
embedding job for a text record with non-empty value_text when the
derivation queue is wired, and no jobs in every other case (queue absent,
non-text field type, missing or empty text). -/
theorem create_enqueues_jobs_spec (ft : String) (fl vt : Option String)
    (q : Bool) (e : Nat) :
    (ft = "text" → ∀ t, vt = some t → t ≠ "" →
      (q = true → countEnrichment (createExperienceJobs ft fl vt q e) = 1 ∧
        countEmbedding (createExperienceJobs ft fl vt q e) = 1) ∧
      (q = false → createExperienceJobs ft fl vt q e = [])) ∧
    (ft ≠ "text" → createExperienceJobs ft fl vt q e = []) ∧
    (vt = none → createExperienceJobs ft fl vt q e = []) ∧
    (vt = some "" → createExperienceJobs ft fl vt q e = []) := by
  refine ⟨?_, ?_, ?_, ?_⟩
  · intro hft t hvt hne
    subst hft; subst hvt
    have hb : (t == "") = false := beq_eq_false_iff_ne.mpr hne
    constructor
    · intro hq; subst hq
      simp [createExperienceJobs, shouldEnrich, enqueueAIJobs,
        countEnrichment, countEmbedding, hb]
    · intro hq; subst hq
      simp [createExperienceJobs]
  · intro hft
    have hb : (ft == "text") = false := beq_eq_false_iff_ne.mpr hft
    simp [createExperienceJobs, shouldEnrich, hb]
  · intro hvt; subst hvt
    simp [createExperienceJobs]
  · intro hvt; subst hvt
    simp [createExperienceJobs]

/-- Witness for C2: concrete inputs for each branch. -/
theorem create_enqueues_jobs_spec_witness :
    countEnrichment (createExperienceJobs "text" none (some "hi") true 7) = 1 ∧
      countEmbedding (createExperienceJobs "text" none (some "hi") true 7) = 1 ∧
      createExperienceJobs "text" none (some "hi") false 7 = [] ∧
      createExperienceJobs "nps" none (some "hi") true 7 = [] := by
  refine ⟨?_, ?_, ?_, ?_⟩
  · exact (((create_enqueues_jobs_spec "text" none (some "hi") true 7).1 rfl
      "hi" rfl (by decide)).1 rfl).1
  · exact (((create_enqueues_jobs_spec "text" none (some "hi") true 7).1 rfl
      "hi" rfl (by decide)).1 rfl).2
  · exact ((create_enqueues_jobs_spec "text" none (some "hi") false 7).1 rfl
      "hi" rfl (by decide)).2 rfl
  · exact (create_enqueues_jobs_spec "nps" none (some "hi") true 7).2.1
      (by decide)

theorem storeScores_length (n : Nat) : (storeScores n).length = n := by
  simp [storeScores]

theorem storeSearchResults_scores (l : List SearchRec) :
    (storeSearchResults l).map Prod.snd = storeScores l.length := by
  unfold storeSearchResults
  apply List.map_snd_zip
  rw [storeScores_length]

/-- C4 counterexample: two records with the same stored embedding have the
same cosine distance to any query, so the claimed formula gives them equal
scores; the store search route scores them positionally as 1 and 3/4. -/
theorem store_search_score_not_cosine_cex :
    rX.embedding = rY.embedding ∧
      (storeSearchResults [rX, rY]).map Prod.snd = [1, 3 / 4] ∧
      (1 : ℚ) ≠ 3 / 4 := by
  refine ⟨rfl, ?_, by norm_num⟩
  rw [storeSearchResults_scores]
  norm_num [storeScores, storeScore, List.range_succ]

/-- C4 (amended): the hub search route attaches
`max 0 (min 1 (1 - d))` for the record's computed cosine distance `d`;
both routes return only records with a stored embedding; the store search
route's score depends only on the record's rank, not on any distance. -/
theorem search_scoring_spec :
    (∀ d : ℚ, hubSimilarity d = max 0 (min 1 (1 - d))) ∧
      (∀ recs : List SearchRec, ∀ r ∈ searchCandidates recs,
        r.embedding ≠ none) ∧
      (∀ recs recs2 : List SearchRec, recs.length = recs2.length →
        (storeSearchResults recs).map Prod.snd =
          (storeSearchResults recs2).map Prod.snd) := by
  refine ⟨?_, ?_, ?_⟩
  · intro d
    unfold hubSimilarity
    rcases lt_or_le (1 - d) 0 with h | h
    · rw [if_pos h, min_eq_right (le_trans h.le zero_le_one), max_eq_left h.le]
    · rw [if_neg (not_lt.mpr h)]
      rcases lt_or_le 1 (1 - d) with h2 | h2
      · rw [if_pos h2, min_eq_left h2.le, max_eq_right zero_le_one]
      · rw [if_neg (not_lt.mpr h2), min_eq_right h2, max_eq_right h]
  · intro recs r hr
    have hmem := List.mem_filter.mp hr
    rcases Option.isSome_iff_exists.mp hmem.2 with ⟨v, hv⟩
    simp [hv]
  · intro recs recs2 hlen
    rw [storeSearchResults_scores, storeSearchResults_scores, hlen]

/-- Witness for C4: concrete clamp value, a filtered record, and two
distance-independent equal-rank score lists. -/
theorem search_scoring_spec_witness :
    hubSimilarity (3 / 2) = max 0 (min 1 (1 - 3 / 2)) ∧
      rX ∈ searchCandidates [rX] ∧ rX.embedding ≠ none ∧
      (storeSearchResults [rX]).map Prod.snd =
        (storeSearchResults [rY]).map Prod.snd :=
  ⟨search_scoring_spec.1 (3 / 2), by decide,
   search_scoring_spec.2.1 [rX] rX (by decide),
   search_scoring_spec.2.2 [rX] [rY] rfl⟩

/-- C6 counterexample: against a target that always answers 500 the
dispatcher makes exactly 3 POSTs; the waits before them are 0s, 1s and 2s,
so the inter-attempt gaps are 1s then 2s — not the claimed 1s, 2s, 4s (a
4s gap would precede a fourth attempt that never happens). -/
theorem webhook_delays_not_1_2_4_cex :
    (sendWithRetry outFail).1.map Prod.fst = [0, 1, 2] ∧
      (sendWithRetry outFail).1.length = 3 ∧
      (sendWithRetry outFail).2 = false ∧
      ([0, 1, 2] : List Nat).tail ≠ [1, 2, 4] := by
  decide

/-- C6 (amended): the dispatcher makes at most 3 POST attempts; when the
target fails every attempt it makes exactly 3 POSTs with backoff waits of
0s, 1s, 2s (gaps of 1s then 2s) and then drops the event; a first 2xx at
attempt k stops the loop after k+1 POSTs with the event delivered. -/
theorem webhook_retry_spec (outcome : Nat → HttpOutcome) :
    ((sendWithRetry outcome).1.length ≤ maxRetries) ∧
      ((∀ i, i < maxRetries → is2xx (outcome i) = false) →
        (sendWithRetry outcome).1.map Prod.fst = [0, 1, 2] ∧
          (sendWithRetry outcome).2 = false) ∧
      (∀ k, k < maxRetries → is2xx (outcome k) = true →
        (∀ i, i < k → is2xx (outcome i) = false) →
        (sendWithRetry outcome).1.length = k + 1 ∧
          (sendWithRetry outcome).2 = true) := by
  by_cases h0 : is2xx (outcome 0) = true
  · have hs : sendWithRetry outcome = ([(0, outcome 0)], true) := by
      simp [sendWithRetry, maxRetries, sendGo, h0, backoffDelay]
    refine ⟨by rw [hs]; simp [maxRetries], ?_, ?_⟩
    · intro hall
      rw [hall 0 (by decide)] at h0
      exact absurd h0 (by simp)
    · intro k hk h2xx hbefore
      have hk0 : k = 0 := by
        by_contra hne
        have hc := hbefore 0 (Nat.pos_of_ne_zero hne)
        rw [h0] at hc
        exact absurd hc (by simp)
      subst hk0
      rw [hs]
      exact ⟨rfl, rfl⟩
  · have h0f : is2xx (outcome 0) = false := by simpa using h0
    by_cases h1 : is2xx (outcome 1) = true
    · have hs : sendWithRetry outcome =
          ([(0, outcome 0), (1, outcome 1)], true) := by
        simp [sendWithRetry, maxRetries, sendGo, h0f, h1, backoffDelay]
      refine ⟨by rw [hs]; simp [maxRetries], ?_, ?_⟩
      · intro hall
        rw [hall 1 (by decide)] at h1
        exact absurd h1 (by simp)
      · intro k hk h2xx hbefore
        have hk1 : k = 1 := by
          rcases k with _ | _ | k
          · rw [h0f] at h2xx; exact absurd h2xx (by simp)
          · rfl
          · have hc := hbefore 1 (by omega)
            rw [h1] at hc
            exact absurd hc (by simp)
        subst hk1
        rw [hs]
        exact ⟨rfl, rfl⟩
    · have h1f : is2xx (outcome 1) = false := by simpa using h1
      by_cases h2 : is2xx (outcome 2) = true
      · have hs : sendWithRetry outcome =
            ([(0, outcome 0), (1, outcome 1), (2, outcome 2)], true) := by
          simp [sendWithRetry, maxRetries, sendGo, h0f, h1f, h2, backoffDelay]
        refine ⟨by rw [hs]; simp [maxRetries], ?_, ?_⟩
        · intro hall
          rw [hall 2 (by decide)] at h2
          exact absurd h2 (by simp)
        · intro k hk h2xx hbefore
          have hk2 : k = 2 := by
            rcases k with _ | _ | _ | k
            · rw [h0f] at h2xx; exact absurd h2xx (by simp)
            · rw [h1f] at h2xx; exact absurd h2xx (by simp)
            · rfl
            · exfalso; simp [maxRetries] at hk; omega
          subst hk2
          rw [hs]
          exact ⟨rfl, rfl⟩
      · have h2f : is2xx (outcome 2) = false := by simpa using h2
        have hs : sendWithRetry outcome =
            ([(0, outcome 0), (1, outcome 1), (2, outcome 2)], false) := by
          simp [sendWithRetry, maxRetries, sendGo, h0f, h1f, h2f, backoffDelay]
        refine ⟨by rw [hs]; simp [maxRetries], ?_, ?_⟩
        · intro _
          rw [hs]
          exact ⟨rfl, rfl⟩
        · intro k hk h2xx hbefore
          exfalso
          simp only [maxRetries] at hk
          rcases k with _ | _ | _ | k
          · rw [h0f] at h2xx; exact absurd h2xx (by simp)
          · rw [h1f] at h2xx; exact absurd h2xx (by simp)
          · rw [h2f] at h2xx; exact absurd h2xx (by simp)
          · omega

/-- Witness for C6: a target failing once then succeeding receives exactly
2 POSTs and the event is delivered. -/
theorem webhook_retry_spec_witness :
    (∀ i, i < 1 → is2xx (outW i) = false) ∧ is2xx (outW 1) = true ∧
      (sendWithRetry outW).1.length = 1 + 1 ∧ (sendWithRetry outW).2 = true := by
  refine ⟨?_, by decide, ?_, ?_⟩
  · intro i hi
    interval_cases i
    decide
  · exact ((webhook_retry_spec outW).2.2 1 (by decide) (by decide)
      (fun i hi => by interval_cases i; decide)).1
  · exact ((webhook_retry_spec outW).2.2 1 (by decide) (by decide)
      (fun i hi => by interval_cases i; decide)).2

/-- C7 counterexample: normalizeEnrichment maps the provider sentiment
"mixed" to "neutral": it is not in the switch's valid set, so it does not
survive normalization. -/
theorem normalize_mixed_not_preserved_cex :
    (normalizeEnrichment
      { sentiment := "mixed", sentimentScore := 0, emotion := "neutral",
        topics := [] }).sentiment = "neutral" ∧
      ("neutral" : String) ≠ "mixed" ∧ "mixed" ∉ validSentiments := by
  refine ⟨?_, by decide, by decide⟩
  decide

/-- C7 (amended): normalization preserves exactly the sentiments in
{positive, negative, neutral} and maps every other value — "mixed"
included — to neutral; the score is clamped to [-1, 1] and topics are
truncated to at most 5. -/
theorem normalize_sentiment_spec (e : Enrichment) :
    (e.sentiment ∈ validSentiments →
      (normalizeEnrichment e).sentiment = e.sentiment) ∧
    (e.sentiment ∉ validSentiments →
      (normalizeEnrichment e).sentiment = "neutral") ∧
    (-1 ≤ (normalizeEnrichment e).sentimentScore ∧
      (normalizeEnrichment e).sentimentScore ≤ 1) ∧
    (normalizeEnrichment e).topics.length ≤ maxTopics := by
  refine ⟨?_, ?_, ?_, ?_⟩
  · intro h
    simp [normalizeEnrichment, h]
  · intro h
    simp [normalizeEnrichment, h]
  · constructor
    · simp only [normalizeEnrichment]
      split
      · exact le_refl _
      · split
        · norm_num
        · next h1 h2 => push_neg at h1; exact h1
    · simp only [normalizeEnrichment]
      split
      · norm_num
      · split
        · exact le_refl _
        · next h1 h2 => push_neg at h2; exact h2
  · simp only [normalizeEnrichment]
    split
    · next h => exact List.length_take_le _ _
    · next h => omega

/-- Witness for C7: a kept valid sentiment and a remapped unknown one. -/
theorem normalize_sentiment_spec_witness :
    ("negative" : String) ∈ validSentiments ∧
      (normalizeEnrichment
        { sentiment := "negative", sentimentScore := 2, emotion := "x",
          topics := [] }).sentiment = "negative" ∧
      ("odd" : String) ∉ validSentiments ∧
      (normalizeEnrichment
        { sentiment := "odd", sentimentScore := 0, emotion := "x",
          topics := [] }).sentiment = "neutral" := by
  refine ⟨by decide, ?_, by decide, ?_⟩
  · exact (normalize_sentiment_spec
      { sentiment := "negative", sentimentScore := 2, emotion := "x",
        topics := [] }).1 (by decide)
  · exact (normalize_sentiment_spec
      { sentiment := "odd", sentimentScore := 0, emotion := "x",
        topics := [] }).2.1 (by decide)

/-- C8 counterexample: a list request with a since value that fails to
parse is *not* answered with 400: the list handler and the store search
handler silently drop the malformed filter and proceed. -/
theorem list_malformed_since_not_400_cex :
    listTimeFilters parseNone ("not-a-timestamp") ("") = .filters none none ∧
      listTimeFilters parseNone ("not-a-timestamp") ("") ≠ .error400 ∧
      storeSearchTimeFilters parseNone ("not-a-timestamp") ("") ≠ .error400 := by
  refine ⟨rfl, ?_, ?_⟩ <;> decide

/-- C8 (amended): only the hub search handler answers 400 on a malformed
since/until; the list handler and the store search handler never answer
400 from time-filter parsing — a malformed filter behaves exactly like an
absent one. -/
theorem time_filter_handling_spec (parse : String → Option Nat)
    (s u : String) :
    (s ≠ "" → parse s = none → hubSearchTimeFilters parse s u = .error400) ∧
      (u ≠ "" → parse u = none → hubSearchTimeFilters parse s u = .error400) ∧
      listTimeFilters parse s u ≠ .error400 ∧
      storeSearchTimeFilters parse s u ≠ .error400 ∧
      (parse s = none → listTimeFilters parse s u =
        listTimeFilters parse ("") u) := by
  refine ⟨?_, ?_, by simp [listTimeFilters], by simp [storeSearchTimeFilters], ?_⟩
  · intro hs hp
    have hb : (s != "") = true := by
      simp [bne_iff_ne, hs]
    simp [hubSearchTimeFilters, hb, hp]
  · intro hu hp
    have hb : (u != "") = true := by
      simp [bne_iff_ne, hu]
    by_cases hcase : (s != "") = true ∧ (parse s).isNone
    · simp [hubSearchTimeFilters, hcase.1, hcase.2]
    · rw [hubSearchTimeFilters, if_neg (by simpa [Bool.and_eq_true] using hcase)]
      simp [hb, hp]
  · intro hp
    by_cases hs : s = ""
    · rw [hs]
    · have hb : (s == "") = false := beq_eq_false_iff_ne.mpr hs
      simp [listTimeFilters, hb, hp]

/-- Witness for C8: a malformed since makes the hub search 400 while the
list handler ignores it. -/
theorem time_filter_handling_spec_witness :
    (("not-a-timestamp" : String) ≠ "") ∧
      parseNone ("not-a-timestamp") = none ∧
      hubSearchTimeFilters parseNone ("not-a-timestamp") ("") = .error400 ∧
      listTimeFilters parseNone ("not-a-timestamp") ("") =
        listTimeFilters parseNone ("") ("") := by
  refine ⟨by decide, rfl, ?_, ?_⟩
  · exact (time_filter_handling_spec parseNone ("not-a-timestamp") ("")).1
      (by decide) rfl
  · exact (time_filter_handling_spec parseNone ("not-a-timestamp") ("")).2.2.2.2
      rfl

/-- C9 counterexample: on two wrong keys of different lengths the store
variant examines zero bytes — it short-circuits on the length test — while
a padded comparison examines max(len a, len b) bytes: the comparison is
not length-independent in that variant. -/
theorem store_secure_compare_short_circuit_cex :
    storeCompareWork [1] [2, 3] = 0 ∧
      hubCompareWork [1] [2, 3] = 2 ∧ (0 : Nat) ≠ 2 ∧
      storeSecureCompare [1] [2, 3] = false := by
  refine ⟨rfl, rfl, by decide, rfl⟩

/-- C9 (amended): the hub middleware's secureCompare pads both inputs to
equal length and always examines max(len a, len b) byte positions, with no
length short-circuit, and decides exact equality; the store middleware's
secureCompare decides the same predicate but returns immediately (zero
bytes examined) when the lengths differ. -/
theorem secure_compare_spec (a b : Bytes) :
    hubCompareWork a b = max a.length b.length ∧
      (hubSecureCompare a b = true ↔ a = b) ∧
      (storeSecureCompare a b = true ↔ a = b) ∧
      (a.length ≠ b.length → storeCompareWork a b = 0) := by
  refine ⟨rfl, ?_, ?_, ?_⟩
  · constructor
    · intro h
      have h2 := (Bool.and_eq_true _ _).mp h
      have hlen : a.length = b.length := by
        simpa using h2.2
      have hpad : padTo a (max a.length b.length) =
          padTo b (max a.length b.length) := by
        simpa using h2.1
      have hm : max a.length b.length = a.length := by omega
      rw [hm] at hpad
      simpa [padTo, hlen] using hpad
    · intro h
      subst h
      simp [hubSecureCompare]
  · constructor
    · intro h
      rw [storeSecureCompare] at h
      split at h
      · simpa using h
      · exact absurd h (by simp)
    · intro h
      subst h
      simp [storeSecureCompare]
  · intro h
    simp [storeCompareWork, h]

/-- Witness for C9: concrete keys of differing lengths. -/
theorem secure_compare_spec_witness :
    (([1] : Bytes).length ≠ ([2, 3] : Bytes).length) ∧
      storeCompareWork [1] [2, 3] = 0 ∧
      (hubSecureCompare [1, 7] [1, 7] = true ↔ ([1, 7] : Bytes) = [1, 7]) := by
  refine ⟨by decide, ?_, ?_⟩
  · exact (secure_compare_spec [1] [2, 3]).2.2.2 (by decide)
  · exact (secure_compare_spec [1, 7] [1, 7]).2.1

/-- C10: the feedback text embedded in the enrichment prompt is the job
text itself when it is at most 1000 bytes, and otherwise exactly its first
1000 bytes with "..." appended (3 more bytes), so the enrichment provider
receives at most 1003 bytes of feedback text. -/
theorem build_prompt_truncation (t : Bytes) :
    (maxTextLength < t.length →
      promptFeedbackText t = t.take maxTextLength ++ ellipsisBytes ∧
        (promptFeedbackText t).length = maxTextLength + 3) ∧
      (t.length ≤ maxTextLength → promptFeedbackText t = t) := by
  constructor
  · intro h
    have he : promptFeedbackText t = t.take maxTextLength ++ ellipsisBytes := by
      simp [promptFeedbackText, h]
    refine ⟨he, ?_⟩
    rw [he]
    simp [ellipsisBytes, List.length_take]
    omega
  · intro h
    simp [promptFeedbackText, Nat.not_lt.mpr h]

/-- Witness for C10: a 1001-byte text is truncated to 1003 bytes. -/
theorem build_prompt_truncation_witness :
    maxTextLength < (List.replicate 1001 7 : Bytes).length ∧
      (promptFeedbackText (List.replicate 1001 7)).length = maxTextLength + 3 ∧
      promptFeedbackText (List.replicate 3 7) = List.replicate 3 7 := by
  refine ⟨?_, ?_, ?_⟩
  · simp only [List.length_replicate, maxTextLength]; omega
  · exact ((build_prompt_truncation (List.replicate 1001 7)).1
      (by simp only [List.length_replicate, maxTextLength]; omega)).2
  · exact (build_prompt_truncation (List.replicate 3 7)).2
      (by simp only [List.length_replicate, maxTextLength]; omega)

end Store
